import Mathlib

/-!
Shallow embedding of the status-tracking subsystem of the
`hypothesis-generation-demo` repository (`src/status_tracker.py`,
`src/db/state_cache/stateCache.py`, the task-history part of `src/db.py`,
and `emit_task_update` in `src/utils.py`), together with proofs of the
specification claims about it.

Modelling conventions:
* A Python step-update dict becomes the `StepUpdate` structure; a field that
  may be absent from the dict is an `Option`.
* The Redis cache becomes `CacheState`: per-id history list (zset in zrange
  order; scores are timestamps, so insertion order is score order in every
  state our theorems reach), per-id latest pointer, and the two global sets
  (`hyp:inprogress:set`, `hyp:persisted:set`) as duplicate-free lists.
* The Mongo task-updates collection becomes `DbState`: a map from
  hypothesis id to the stored history list (the `_id` / `hypothesis_id`
  decoration Mongo adds is plumbing and is not modelled).
* Python `float` progress arithmetic is modelled over `ℚ`; every value
  `calculate_progress` returns is an integer (the per-phase normalisations
  cancel exactly), so the binary-float rounding and Python's
  round-half-even never differ from exact rational rounding here.
* Wall-clock timestamps are passed in explicitly as a `now : String`
  parameter wherever the source calls `datetime.now`.
-/

namespace HypDemo

/-- `TaskState` enum from `status_tracker.py`. -/
inductive TaskState : Type
  | started
  | completed
  | failed
  | retrying
  deriving DecidableEq, Repr

/-- `.value` of the Python enum member. -/
def TaskState.value : TaskState → String
  | .started => "started"
  | .completed => "completed"
  | .failed => "failed"
  | .retrying => "retrying"

/-- One step-update dict.  `task` is always present (every writer sets it);
the other fields may be absent, hence `Option`. -/
structure StepUpdate : Type where
  timestamp : Option String
  task : String
  state : Option String
  progress : Option ℚ
  details : Option String
  error : Option String
  deriving DecidableEq, Repr

/-- Dedup key `(update['task'], update['timestamp'])`.  A missing
timestamp is totalised to `none` here, whereas Python's
`update['timestamp']` access in the dedup loop raises `KeyError`;
theorems about runs of the merge therefore restrict themselves to states
whose history entries all carry timestamps. -/
def StepUpdate.key (u : StepUpdate) : String × Option String :=
  (u.task, u.timestamp)

/-! ### Ephemeral cache (`RedisStatusCache`, `src/db/state_cache/stateCache.py`) -/

/-- Abstract Redis state relevant to the subsystem. -/
structure CacheState : Type where
  history : String → List StepUpdate
  latest : String → Option StepUpdate
  inprogress : List String
  persisted : List String

/-- `SADD`: a Redis set add (no duplicates). -/
def sadd (l : List String) (x : String) : List String :=
  if x ∈ l then l else l ++ [x]

/-- `ZADD` with an exact-payload member: adding an already-present payload
only refreshes its score (same timestamp, so a no-op here). -/
def zaddMember (l : List StepUpdate) (u : StepUpdate) : List StepUpdate :=
  if u ∈ l then l else l ++ [u]

/-- `ts_iso = update.get("timestamp"); if not ts_iso: ...` — stamp `now`
when the timestamp is absent or falsy (empty string). -/
def ensureTimestamp (now : String) (u : StepUpdate) : StepUpdate :=
  match u.timestamp with
  | none => { u with timestamp := some now }
  | some t => if t = "" then { u with timestamp := some now } else u

namespace RedisStatusCache

/-- `RedisStatusCache.add_update`. -/
def add_update (now : String) (c : CacheState) (hypId : String)
    (update : StepUpdate) : CacheState :=
  let update := ensureTimestamp now update
  { history := fun k => if k = hypId then zaddMember (c.history k) update else c.history k
    latest := fun k => if k = hypId then some update else c.latest k
    inprogress := sadd c.inprogress hypId
    persisted := c.persisted }

/-- `RedisStatusCache.get_history` (zrange over the whole set). -/
def get_history (c : CacheState) (hypId : String) : List StepUpdate :=
  c.history hypId

/-- `RedisStatusCache.get_latest`. -/
def get_latest (c : CacheState) (hypId : String) : Option StepUpdate :=
  c.latest hypId

/-- `RedisStatusCache.clear_history`: delete history and latest, remove from
the in-progress set, add to the persisted set. -/
def clear_history (c : CacheState) (hypId : String) : CacheState :=
  { history := fun k => if k = hypId then [] else c.history k
    latest := fun k => if k = hypId then none else c.latest k
    inprogress := c.inprogress.erase hypId
    persisted := sadd c.persisted hypId }

/-- `RedisStatusCache.is_persisted`. -/
def is_persisted (c : CacheState) (hypId : String) : Bool :=
  hypId ∈ c.persisted

/-- `RedisStatusCache.list_inprogress`. -/
def list_inprogress (c : CacheState) : List String :=
  c.inprogress

end RedisStatusCache

/-! ### Durable store (task-history part of `src/db.py`) -/

/-- The `task_updates` collection, keyed by hypothesis id. -/
structure DbState : Type where
  store : String → List StepUpdate

namespace Db

/-- `get_task_history`: find all docs for the id (empty list when none). -/
def get_task_history (d : DbState) (hypId : String) : List StepUpdate :=
  d.store hypId

/-- `save_task_history`: delete the existing history, then batch-insert the
new one (a full replace). -/
def save_task_history (d : DbState) (hypId : String)
    (task_history : List StepUpdate) : DbState :=
  { store := fun k => if k = hypId then task_history else d.store k }

end Db

/-! ### Merge, dedup and sort used by the tracker -/

/-- Inserting one update into the Python dedup dict keyed by
`(task, timestamp)`: an existing key keeps its position and gets the new
value; a new key is appended. -/
def dedupInsert (acc : List StepUpdate) (u : StepUpdate) : List StepUpdate :=
  if acc.any (fun v => v.key = u.key) then
    acc.map (fun v => if v.key = u.key then u else v)
  else
    acc ++ [u]

/-- The `deduplicated` dict built by iterating the combined history;
`.values()` in insertion order of keys. -/
def dedupByKey (l : List StepUpdate) : List StepUpdate :=
  l.foldl dedupInsert []

/-- The sort key `lambda x: x['timestamp']`.  A missing timestamp is
totalised to `""` here, whereas Python's access raises `KeyError`;
theorems about runs of the sort therefore restrict themselves to states
whose history entries all carry timestamps. -/
def tsKey (u : StepUpdate) : String :=
  u.timestamp.getD ""

/-- One step of stable insertion sort on the timestamp key: the new element
goes after all existing elements with an equal key. -/
def insertSorted (u : StepUpdate) : List StepUpdate → List StepUpdate
  | [] => [u]
  | v :: vs => if tsKey u < tsKey v then u :: v :: vs else v :: insertSorted u vs

/-- Python's stable `sorted(..., key=lambda x: x['timestamp'])`. -/
def sortByTs (l : List StepUpdate) : List StepUpdate :=
  l.foldl (fun acc u => insertSorted u acc) []

/-- The merged, deduplicated, timestamp-sorted history the tracker builds
from a store history followed by a cache history. -/
def mergedHistory (db_history new_history : List StepUpdate) : List StepUpdate :=
  sortByTs (dedupByKey (db_history ++ new_history))

/-! ### Status tracker (`src/status_tracker.py`) -/

/-- Combined state of the two collaborators the tracker orchestrates. -/
structure TrackerState : Type where
  cache : CacheState
  db : DbState

/-- `if details:` — a Python falsy optional string (absent or empty) is
dropped from the update dict. -/
def optTruthy : Option String → Option String
  | none => none
  | some s => if s = "" then none else some s

/-- The update dict `StatusTracker.add_update` builds before caching it. -/
def recordUpdate (now task_name : String) (state : TaskState) (progress : ℚ)
    (details err : Option String) : StepUpdate :=
  { timestamp := some now, task := task_name, state := some state.value,
    progress := some progress, details := optTruthy details,
    error := optTruthy err }

/-- Python `round`'s round-half-to-even on an exact rational (every value
the progress computation feeds to rounding is an integer, where all
round-to-nearest styles and binary-float rounding agree). -/
def pyRound (q : ℚ) : ℤ :=
  let f := Rat.floor q
  let r := q - (f : ℚ)
  if r < 1 / 2 then f
  else if 1 / 2 < r then f + 1
  else if f % 2 = 0 then f else f + 1

/-- Python `round(x, 2)` on the exact rational value. -/
def round2 (q : ℚ) : ℚ :=
  (pyRound (q * 100) : ℚ) / 100

namespace StatusTracker

/-- `StatusTracker._persist_and_clear`: read both histories, merge,
deduplicate by `(task, timestamp)` (later entries win), sort by timestamp,
replace the durable history, clear the cache entry. -/
def persist_and_clear (s : TrackerState) (hypId : String) : TrackerState :=
  let db_history := Db.get_task_history s.db hypId
  let new_history := RedisStatusCache.get_history s.cache hypId
  let final_history := mergedHistory db_history new_history
  { db := Db.save_task_history s.db hypId final_history
    cache := RedisStatusCache.clear_history s.cache hypId }

/-- `StatusTracker.add_update` (the `record` entry point).  The
`isinstance(state, TaskState)` check is discharged by typing; the empty-id
check raises `ValueError`. -/
def add_update (now : String) (s : TrackerState) (hypothesis_id : String)
    (progress : ℚ) (task_name : String) (state : TaskState)
    (details error : Option String) : Except String TrackerState :=
  if hypothesis_id = "" then
    Except.error "Hypothesis ID is required"
  else
    let update := recordUpdate now task_name state progress details error
    let s1 : TrackerState :=
      { s with cache := RedisStatusCache.add_update now s.cache hypothesis_id update }
    Except.ok
      (if (state = TaskState.completed ∨ state = TaskState.failed) ∧
          ((task_name = "Creating enrich data" ∨ task_name = "Generating hypothesis") ∨
            (String.isPrefixOf "Verifying existence" task_name = true ∧ progress = 80)) then
        persist_and_clear s1 hypothesis_id
      else
        s1)

/-- `StatusTracker.get_history`: cache history, plus durable history when
the instance is marked persisted; dedup and sort. -/
def get_history (s : TrackerState) (hypId : String) : List StepUpdate :=
  let redis_history := RedisStatusCache.get_history s.cache hypId
  let db_history :=
    if RedisStatusCache.is_persisted s.cache hypId then Db.get_task_history s.db hypId
    else []
  let combined_history := redis_history ++ db_history
  if combined_history = [] then []
  else sortByTs (dedupByKey combined_history)

/-- `StatusTracker.get_latest_state`. -/
def get_latest_state (s : TrackerState) (hypId : String) : Option StepUpdate :=
  RedisStatusCache.get_latest s.cache hypId

/-- `enrichment_tasks` weight table (Python int weights). -/
def enrichment_tasks : List (String × ℤ) :=
  [("Verifying existence of enrichment data", 10),
   ("Getting candidate genes", 10),
   ("Predicting causal gene", 20),
   ("Getting relevant gene proof", 20),
   ("Creating enrich data", 20)]

/-- `hypothesis_tasks` weight table (the source spells the second task
"Getting enrichement data"). -/
def hypothesis_tasks : List (String × ℤ) :=
  [("Verifying existence of hypothesis data", 2),
   ("Getting enrichement data", 2),
   ("Getting gene data", 2),
   ("Querying gene data", 3),
   ("Querying variant data", 3),
   ("Querying phenotype data", 3),
   ("Generating graph summary", 3),
   ("Generating hypothesis", 2)]

/-- The `if task_name in enrichment_tasks: ... elif task_name in
hypothesis_tasks: ...` accumulation over one completed task (Python int
arithmetic). -/
def addWeights (p : ℤ × ℤ) (t : StepUpdate) : ℤ × ℤ :=
  match enrichment_tasks.lookup t.task with
  | some w => (p.1 + w, p.2)
  | none =>
    match hypothesis_tasks.lookup t.task with
    | some w => (p.1, p.2 + w)
    | none => p

/-- `StatusTracker.calculate_progress`. -/
def calculate_progress (task_history : List StepUpdate) : ℚ :=
  if task_history = [] then 0
  else
    let filtered_history :=
      task_history.filter (fun t => t.state = some TaskState.completed.value)
    let p := filtered_history.foldl addWeights (0, 0)
    let total_enrichment_weight := (enrichment_tasks.map Prod.snd).sum
    let total_hypothesis_weight := (hypothesis_tasks.map Prod.snd).sum
    let enrichment_percentage := (p.1 : ℚ) / (total_enrichment_weight : ℚ) * 80
    let hypothesis_percentage := (p.2 : ℚ) / (total_hypothesis_weight : ℚ) * 20
    round2 (min (enrichment_percentage + hypothesis_percentage) 100)

/-- The patched latest update `recover_from_cache` rewrites: absent fields
default to `timestamp = now`, `state = FAILED.value`, `progress = 0`. -/
def patchLatest (now : String) (u : StepUpdate) : StepUpdate :=
  { u with
    timestamp := some (u.timestamp.getD now)
    state := some (u.state.getD TaskState.failed.value)
    progress := some (u.progress.getD 0) }

/-- One iteration of the `recover_from_cache` loop for one id: patch and
re-write the latest update when there is one, then persist-and-clear
unconditionally. -/
def recoverOne (now : String) (s : TrackerState) (hypId : String) : TrackerState :=
  let s' :=
    match RedisStatusCache.get_latest s.cache hypId with
    | none => s
    | some latest =>
      { s with
        cache := RedisStatusCache.add_update now s.cache hypId (patchLatest now latest) }
  persist_and_clear s' hypId

/-- `StatusTracker.recover_from_cache`: iterate over a snapshot of the
in-progress set. -/
def recover_from_cache (now : String) (s : TrackerState) : TrackerState :=
  (RedisStatusCache.list_inprogress s.cache).foldl (recoverOne now) s

end StatusTracker

/-- The empty initial state: nothing cached, nothing stored. -/
def initialState : TrackerState :=
  { cache := { history := fun _ => [], latest := fun _ => none,
               inprogress := [], persisted := [] }
    db := { store := fun _ => [] } }

/-- Run `add_update` ignoring the `ValueError` path (used to chain concrete
scenarios whose calls are separately proved to succeed). -/
def runRecord (now : String) (s : TrackerState) (hypId : String) (progress : ℚ)
    (taskName : String) (state : TaskState) (details error : Option String) :
    TrackerState :=
  match StatusTracker.add_update now s hypId progress taskName state details error with
  | Except.ok t => t
  | Except.error _ => s

/-- Phase sums (enrichment, hypothesis) accumulated over the completed
entries of a history, as `calculate_progress` computes them. -/
def phaseSums (task_history : List StepUpdate) : ℤ × ℤ :=
  (task_history.filter
    (fun t => t.state = some TaskState.completed.value)).foldl StatusTracker.addWeights (0, 0)

/-- A minimal completed-state update used by concrete scenarios. -/
def mkCompleted (ts task : String) : StepUpdate :=
  { timestamp := some ts, task := task, state := some "completed",
    progress := some 0, details := none, error := none }

/-- The eight downstream-phase task names exactly as the specification's
phase weight table lists them, one completed entry each. -/
def c2SpecHistory : List StepUpdate :=
  [mkCompleted "t1" "Verifying existence of hypothesis data",
   mkCompleted "t2" "Getting enrichment data",
   mkCompleted "t3" "Getting gene data",
   mkCompleted "t4" "Querying gene data",
   mkCompleted "t5" "Querying variant data",
   mkCompleted "t6" "Querying phenotype data",
   mkCompleted "t7" "Generating graph summary",
   mkCompleted "t8" "Generating hypothesis"]

/-- The same eight tasks with the source's spelling of the second name
("Getting enrichement data"). -/
def c2CodeHistory : List StepUpdate :=
  [mkCompleted "t1" "Verifying existence of hypothesis data",
   mkCompleted "t2" "Getting enrichement data",
   mkCompleted "t3" "Getting gene data",
   mkCompleted "t4" "Querying gene data",
   mkCompleted "t5" "Querying variant data",
   mkCompleted "t6" "Querying phenotype data",
   mkCompleted "t7" "Generating graph summary",
   mkCompleted "t8" "Generating hypothesis"]

/-- Two completed "Creating enrich data" entries with distinct timestamps. -/
def c10History : List StepUpdate :=
  [mkCompleted "t1" "Creating enrich data",
   mkCompleted "t2" "Creating enrich data"]

/-- The cache history as it stands when `recover_from_cache` reaches the
`_persist_and_clear` call for one id: the patched latest update has been
re-written into it when a latest pointer existed. -/
def patchedCacheHistory (now : String) (s : TrackerState) (hypId : String) :
    List StepUpdate :=
  match RedisStatusCache.get_latest s.cache hypId with
  | none => s.cache.history hypId
  | some latest =>
    zaddMember (s.cache.history hypId)
      (ensureTimestamp now (StatusTracker.patchLatest now latest))

/-! ### Broadcaster (`emit_task_update`, `src/utils.py`).

Only the effects the claims are about are modelled: the order of the
record relative to the publish attempts, the retry loop (`range(3)`, one
fixed `sleep(1)` between failed attempts, re-raise on the last), and the
returned tracker state.  The envelope payload, a pure value passed to
`socketio.emit`, carries no tracked state and is not modelled. -/

/-- The publish retry loop over the remaining attempt indices: returns the
back-off sleeps performed and either success or the re-raised error of the
final attempt.  `publishOk i` says whether attempt `i` would succeed. -/
def runAttempts (publishOk : Nat → Bool) : List Nat → List Nat × Except String Unit
  | [] => ([], Except.ok ())
  | [a] =>
    if publishOk a then ([], Except.ok ())
    else ([], Except.error "Failed to emit task update")
  | a :: b :: rest =>
    if publishOk a then ([], Except.ok ())
    else
      let r := runAttempts publishOk (b :: rest)
      (1 :: r.1, r.2)

/-- `emit_task_update`: read history, recompute progress when the caller
passed 0, record the update (committing any finalize it triggers), then
attempt the broadcast up to 3 times.  The result carries the committed
tracker state, the sleeps performed, and the broadcast outcome. -/
def emit_task_update (now : String) (s : TrackerState) (hypothesis_id task_name : String)
    (state : TaskState) (progress : ℚ) (details error : Option String)
    (publishOk : Nat → Bool) :
    Except String (TrackerState × List Nat × Except String Unit) :=
  let task_history := StatusTracker.get_history s hypothesis_id
  let progress := if progress = 0 then StatusTracker.calculate_progress task_history else progress
  match StatusTracker.add_update now s hypothesis_id progress task_name state details error with
  | Except.error e => Except.error e
  | Except.ok s1 =>
    let r := runAttempts publishOk (List.range 3)
    Except.ok (s1, r.1, r.2)

/-! ### Concrete scenario states -/

/-- One finalize-triggering record on a fresh instance: afterwards "h1" is
persisted and no longer in progress. -/
def c4State1 : TrackerState :=
  runRecord "T1" initialState "h1" 80 "Creating enrich data" TaskState.completed none none

/-- A subsequent ordinary record on the already-persisted "h1". -/
def c4State2 : TrackerState :=
  runRecord "T2" c4State1 "h1" 10 "Querying gene data" TaskState.started none none

/-- A durable-store entry and a cache entry sharing the dedup key
`("Querying gene data", "T0")` but differing in content. -/
def c1DbEntry : StepUpdate :=
  { timestamp := some "T0", task := "Querying gene data", state := some "completed",
    progress := some 50, details := none, error := none }

/-- The colliding cache entry (same key as `c1DbEntry`, different state). -/
def c1CacheEntry : StepUpdate :=
  { timestamp := some "T0", task := "Querying gene data", state := some "started",
    progress := some 40, details := none, error := none }

/-- A persisted instance whose cache and durable histories collide on one
key. -/
def c1State : TrackerState :=
  { cache := { history := fun k => if k = "h1" then [c1CacheEntry] else [],
               latest := fun _ => none, inprogress := [], persisted := ["h1"] }
    db := { store := fun k => if k = "h1" then [c1DbEntry] else [] } }

/-- A latest cached update that lacks `timestamp`, `state` and `progress`
(the abandoned-instance shape of the spec's recovery scenario). -/
def c7Latest : StepUpdate :=
  { timestamp := none, task := "Generating hypothesis", state := none,
    progress := none, details := none, error := none }

/-- A fully-timestamped history entry for the recovery scenario (every
entry the cache's `add_update` writes carries a timestamp). -/
def c7HistEntry : StepUpdate :=
  { timestamp := some "T0", task := "Generating hypothesis",
    state := some "started", progress := some 90, details := none,
    error := none }

/-- An unclean-shutdown state: "h2" left in progress with a timestamped
history entry, while its latest pointer holds the bare update.  Every
history entry carries a timestamp, so `_persist_and_clear` completes on
this state (no `KeyError` on `update['timestamp']`). -/
def c7State : TrackerState :=
  { cache := { history := fun k => if k = "h2" then [c7HistEntry] else [],
               latest := fun k => if k = "h2" then some c7Latest else none,
               inprogress := ["h2"], persisted := [] }
    db := { store := fun _ => [] } }

/-! ## Helper lemmas: rounding arithmetic -/

lemma pyRound_eq (q : ℚ) :
    pyRound q =
      if q - (⌊q⌋ : ℚ) < 1 / 2 then ⌊q⌋
      else if 1 / 2 < q - (⌊q⌋ : ℚ) then ⌊q⌋ + 1
      else if ⌊q⌋ % 2 = 0 then ⌊q⌋ else ⌊q⌋ + 1 := rfl

lemma floor_le_pyRound (q : ℚ) : ⌊q⌋ ≤ pyRound q := by
  rw [pyRound_eq]; split_ifs <;> omega

lemma pyRound_le (q : ℚ) : pyRound q ≤ ⌊q⌋ + 1 := by
  rw [pyRound_eq]; split_ifs <;> omega

lemma pyRound_mono {q r : ℚ} (h : q ≤ r) : pyRound q ≤ pyRound r := by
  rcases lt_or_eq_of_le (Int.floor_le_floor h) with hf | hf
  · calc pyRound q ≤ ⌊q⌋ + 1 := pyRound_le q
      _ ≤ ⌊r⌋ := by omega
      _ ≤ pyRound r := floor_le_pyRound r
  · have hab : q - (⌊q⌋ : ℚ) ≤ r - (⌊r⌋ : ℚ) := by
      rw [← hf]; exact sub_le_sub_right h _
    rw [pyRound_eq, pyRound_eq, ← hf]
    split_ifs <;> first | omega | linarith

lemma pyRound_intCast (n : ℤ) : pyRound ((n : ℚ)) = n := by
  rw [pyRound_eq, Int.floor_intCast]
  norm_num

lemma round2_intCast (n : ℤ) : round2 ((n : ℚ)) = (n : ℚ) := by
  unfold round2
  have h : ((n : ℚ) * 100) = ((n * 100 : ℤ) : ℚ) := by push_cast; ring
  rw [h, pyRound_intCast]
  push_cast
  field_simp

lemma round2_mono {q r : ℚ} (h : q ≤ r) : round2 q ≤ round2 r := by
  unfold round2
  have h1 := pyRound_mono (mul_le_mul_of_nonneg_right h (by norm_num : (0:ℚ) ≤ 100))
  have h2 : ((pyRound (q * 100) : ℤ) : ℚ) ≤ ((pyRound (r * 100) : ℤ) : ℚ) := by
    exact_mod_cast h1
  gcongr

/-! ## Helper lemmas: progress computation -/

lemma calculate_progress_eq (h : List StepUpdate) (hne : h ≠ []) :
    StatusTracker.calculate_progress h =
      round2 (min (((phaseSums h).1 : ℚ) + ((phaseSums h).2 : ℚ)) 100) := by
  have hE : ((StatusTracker.enrichment_tasks.map Prod.snd).sum : ℤ) = 80 := by decide
  have hH : ((StatusTracker.hypothesis_tasks.map Prod.snd).sum : ℤ) = 20 := by decide
  simp only [StatusTracker.calculate_progress, if_neg hne, hE, hH, phaseSums]
  norm_num

lemma lookup_nonneg {l : List (String × ℤ)} (hl : ∀ p ∈ l, 0 ≤ p.2) {s : String}
    {w : ℤ} (h : l.lookup s = some w) : 0 ≤ w := by
  induction l with
  | nil => simp [List.lookup] at h
  | cons a l ih =>
    rw [List.lookup] at h
    cases hk : (s == a.1) with
    | true =>
      rw [hk] at h
      simp only [] at h
      cases h
      exact hl a (List.mem_cons_self a l)
    | false =>
      rw [hk] at h
      simp only [] at h
      exact ih (fun p hp => hl p (List.mem_cons_of_mem a hp)) h

lemma le_addWeights (p : ℤ × ℤ) (t : StepUpdate) :
    p.1 ≤ (StatusTracker.addWeights p t).1 ∧ p.2 ≤ (StatusTracker.addWeights p t).2 := by
  unfold StatusTracker.addWeights
  cases hE : StatusTracker.enrichment_tasks.lookup t.task with
  | some w =>
    have hw := lookup_nonneg (by decide) hE
    simp only []
    omega
  | none =>
    cases hH : StatusTracker.hypothesis_tasks.lookup t.task with
    | some w =>
      have hw := lookup_nonneg (by decide) hH
      simp only []
      omega
    | none => simp only []; omega

lemma foldl_addWeights_le (l : List StepUpdate) (p : ℤ × ℤ) :
    p.1 ≤ (l.foldl StatusTracker.addWeights p).1 ∧
      p.2 ≤ (l.foldl StatusTracker.addWeights p).2 := by
  induction l generalizing p with
  | nil => exact ⟨le_refl _, le_refl _⟩
  | cons t l ih =>
    have h1 := le_addWeights p t
    have h2 := ih (StatusTracker.addWeights p t)
    exact ⟨h1.1.trans h2.1, h1.2.trans h2.2⟩

lemma phaseSums_nonneg (h : List StepUpdate) :
    0 ≤ (phaseSums h).1 ∧ 0 ≤ (phaseSums h).2 :=
  foldl_addWeights_le _ (0, 0)

lemma phaseSums_append_single (h : List StepUpdate) (u : StepUpdate) :
    phaseSums (h ++ [u]) =
      if u.state = some TaskState.completed.value then
        StatusTracker.addWeights (phaseSums h) u
      else phaseSums h := by
  unfold phaseSums
  rw [List.filter_append, List.foldl_append]
  by_cases hu : u.state = some TaskState.completed.value
  · simp [hu]
  · simp [hu]

lemma calculate_progress_nonneg (h : List StepUpdate) :
    0 ≤ StatusTracker.calculate_progress h := by
  by_cases hne : h = []
  · subst hne
    simp [StatusTracker.calculate_progress]
  · rw [calculate_progress_eq h hne]
    have h0 : round2 (((0 : ℤ) : ℚ)) = ((0 : ℤ) : ℚ) := round2_intCast 0
    norm_num at h0
    rw [← h0]
    apply round2_mono
    have hs := phaseSums_nonneg h
    have : (0:ℚ) ≤ ((phaseSums h).1 : ℚ) + ((phaseSums h).2 : ℚ) := by
      have := add_le_add hs.1 hs.2
      exact_mod_cast this
    exact le_min this (by norm_num)

lemma round2_eighteen : round2 (18 : ℚ) = 18 := by
  have h := round2_intCast 18
  norm_num at h
  exact h

/-! ## Claim C2 -/

/-- C2 (counterexample): a history with exactly one Completed entry for each
of the eight downstream-phase task names as the specification's weight table
spells them (in particular "Getting enrichment data") does NOT yield 20.00:
`calculate_progress` returns 18, because the source's table keys the second
task as "Getting enrichement data", so the spec-spelled name matches no
table and contributes no weight. -/
theorem c2_spec_spelling_not_twenty :
    StatusTracker.calculate_progress c2SpecHistory ≠ 20 ∧
      StatusTracker.calculate_progress c2SpecHistory = 18 := by
  have h18 : StatusTracker.calculate_progress c2SpecHistory = 18 := by
    rw [calculate_progress_eq _ (by decide)]
    have hp : phaseSums c2SpecHistory = (0, 18) := by decide
    rw [hp]
    norm_num
    exact round2_eighteen
  exact ⟨by rw [h18]; norm_num, h18⟩

/-- C2 (amended): with the source's spelling of the eight downstream-phase
task names — "Getting enrichement data" instead of the spec's "Getting
enrichment data" — one Completed entry per task and no enrichment-phase
entries yields exactly 20.00. -/
theorem c2_code_spelling_twenty :
    StatusTracker.calculate_progress c2CodeHistory = 20 := by
  rw [calculate_progress_eq _ (by decide)]
  have hp : phaseSums c2CodeHistory = (0, 20) := by decide
  rw [hp]
  norm_num
  have h := round2_intCast 20
  norm_num at h
  exact h

/-! ## Claim C10 -/

/-- C10: `calculate_progress` does not deduplicate repeated completions:
a history with exactly two Completed "Creating enrich data" entries at
distinct timestamps counts the task's weight twice and returns 40.0
rather than 20.0. -/
theorem calculate_progress_counts_duplicates :
    StatusTracker.calculate_progress c10History = 40 ∧
      StatusTracker.calculate_progress c10History ≠ 20 := by
  have h40 : StatusTracker.calculate_progress c10History = 40 := by
    rw [calculate_progress_eq _ (by decide)]
    have hp : phaseSums c10History = (40, 0) := by decide
    rw [hp]
    norm_num
    have h := round2_intCast 40
    norm_num at h
    exact h
  exact ⟨h40, by rw [h40]; norm_num⟩

/-! ## Claim C9 -/

/-- C9: `calculate_progress` is monotonic non-decreasing: appending a
Completed update whose task name appears in either phase weight table never
decreases the result. -/
theorem calculate_progress_monotone (h : List StepUpdate) (u : StepUpdate)
    (hstate : u.state = some TaskState.completed.value)
    (htask : u.task ∈ StatusTracker.enrichment_tasks.map Prod.fst ∨
      u.task ∈ StatusTracker.hypothesis_tasks.map Prod.fst) :
    StatusTracker.calculate_progress h ≤ StatusTracker.calculate_progress (h ++ [u]) := by
  by_cases hne : h = []
  · subst hne
    simp only [StatusTracker.calculate_progress, if_pos rfl, List.nil_append]
    exact calculate_progress_nonneg [u]
  · have hne2 : h ++ [u] ≠ [] := by simp
    rw [calculate_progress_eq h hne, calculate_progress_eq _ hne2,
      phaseSums_append_single, if_pos hstate]
    apply round2_mono
    apply min_le_min _ le_rfl
    have h1 := le_addWeights (phaseSums h) u
    have h2 := add_le_add h1.1 h1.2
    exact_mod_cast h2

/-- Witness for C9 at a concrete history and update. -/
theorem calculate_progress_monotone_witness :
    StatusTracker.calculate_progress [mkCompleted "t1" "Creating enrich data"] ≤
      StatusTracker.calculate_progress
        ([mkCompleted "t1" "Creating enrich data"] ++ [mkCompleted "t2" "Querying gene data"]) :=
  calculate_progress_monotone [mkCompleted "t1" "Creating enrich data"]
    (mkCompleted "t2" "Querying gene data") (by decide) (by decide)

/-! ## Helper lemmas: Redis set model -/

lemma mem_sadd {l : List String} {x y : String} : y ∈ sadd l x ↔ y ∈ l ∨ y = x := by
  unfold sadd
  split_ifs with h
  · constructor
    · exact fun hy => Or.inl hy
    · rintro (hy | rfl)
      · exact hy
      · exact h
  · simp

lemma sadd_nodup {l : List String} {x : String} (h : l.Nodup) : (sadd l x).Nodup := by
  unfold sadd
  split_ifs with hx
  · exact h
  · simp [List.nodup_append, h, hx]

/-! ## Helper lemmas: dedup-by-key semantics -/

/-- The keys of a history, in order. -/
def keysOf (l : List StepUpdate) : List (String × Option String) :=
  l.map StepUpdate.key

/-- The last entry of `l` carrying key `k` (the one the Python dedup dict
retains as the value for `k`). -/
def lastWithKey (l : List StepUpdate) (k : String × Option String) : Option StepUpdate :=
  (l.filter (fun u => u.key = k)).getLast?

lemma dedupInsert_of_mem {acc : List StepUpdate} {u : StepUpdate}
    (h : ∃ v ∈ acc, v.key = u.key) :
    dedupInsert acc u = acc.map (fun v => if v.key = u.key then u else v) := by
  unfold dedupInsert
  rw [if_pos]
  simpa [List.any_eq_true] using h

lemma dedupInsert_of_not_mem {acc : List StepUpdate} {u : StepUpdate}
    (h : ¬∃ v ∈ acc, v.key = u.key) :
    dedupInsert acc u = acc ++ [u] := by
  unfold dedupInsert
  rw [if_neg]
  simpa [List.any_eq_true] using h

lemma mem_dedupInsert {acc : List StepUpdate} {u v : StepUpdate} :
    v ∈ dedupInsert acc u ↔ v = u ∨ (v ∈ acc ∧ v.key ≠ u.key) := by
  by_cases h : ∃ w ∈ acc, w.key = u.key
  · rw [dedupInsert_of_mem h]
    constructor
    · intro hv
      obtain ⟨w, hw, hweq⟩ := List.mem_map.mp hv
      by_cases hk : w.key = u.key
      · rw [if_pos hk] at hweq
        exact Or.inl hweq.symm
      · rw [if_neg hk] at hweq
        subst hweq
        exact Or.inr ⟨hw, hk⟩
    · rintro (rfl | ⟨hv, hk⟩)
      · obtain ⟨w, hw, hweq⟩ := h
        exact List.mem_map.mpr ⟨w, hw, by rw [if_pos hweq]⟩
      · exact List.mem_map.mpr ⟨v, hv, by rw [if_neg hk]⟩
  · rw [dedupInsert_of_not_mem h]
    push_neg at h
    constructor
    · intro hv
      rcases List.mem_append.mp hv with hv | hv
      · exact Or.inr ⟨hv, h v hv⟩
      · simp only [List.mem_singleton] at hv
        exact Or.inl hv
    · rintro (rfl | ⟨hv, _⟩)
      · simp
      · exact List.mem_append.mpr (Or.inl hv)

lemma dedupByKey_append_single (l : List StepUpdate) (u : StepUpdate) :
    dedupByKey (l ++ [u]) = dedupInsert (dedupByKey l) u := by
  unfold dedupByKey
  rw [List.foldl_append]
  rfl

lemma lastWithKey_append_single (l : List StepUpdate) (w : StepUpdate)
    (k : String × Option String) :
    lastWithKey (l ++ [w]) k = if w.key = k then some w else lastWithKey l k := by
  unfold lastWithKey
  rw [List.filter_append]
  by_cases h : w.key = k
  · simp [h]
  · simp [h]

lemma mem_dedupByKey {l : List StepUpdate} {v : StepUpdate} :
    v ∈ dedupByKey l ↔ lastWithKey l v.key = some v := by
  induction l using List.reverseRecOn with
  | nil => simp [dedupByKey, lastWithKey]
  | append_singleton l w ih =>
    rw [dedupByKey_append_single, mem_dedupInsert, lastWithKey_append_single, ih]
    by_cases hk : w.key = v.key
    · rw [if_pos hk]
      constructor
      · rintro (rfl | ⟨_, hne⟩)
        · rfl
        · exact absurd hk.symm hne
      · intro hsome
        exact Or.inl (Option.some_injective _ hsome).symm
    · rw [if_neg hk]
      constructor
      · rintro (rfl | ⟨hl, _⟩)
        · exact absurd rfl hk
        · exact hl
      · intro hl
        exact Or.inr ⟨hl, fun hvk => hk hvk.symm⟩

lemma keysOf_dedupInsert_mem {acc : List StepUpdate} {u : StepUpdate}
    (h : ∃ v ∈ acc, v.key = u.key) :
    keysOf (dedupInsert acc u) = keysOf acc := by
  rw [dedupInsert_of_mem h]
  unfold keysOf
  rw [List.map_map]
  apply List.map_congr_left
  intro v _
  by_cases hk : v.key = u.key
  · show StepUpdate.key (if v.key = u.key then u else v) = v.key
    rw [if_pos hk, ← hk]
  · show StepUpdate.key (if v.key = u.key then u else v) = v.key
    rw [if_neg hk]

lemma keysOf_dedupInsert_not_mem {acc : List StepUpdate} {u : StepUpdate}
    (h : ¬∃ v ∈ acc, v.key = u.key) :
    keysOf (dedupInsert acc u) = keysOf acc ++ [u.key] := by
  rw [dedupInsert_of_not_mem h]
  unfold keysOf
  rw [List.map_append]
  rfl

lemma nodup_keysOf_dedupByKey (l : List StepUpdate) :
    (keysOf (dedupByKey l)).Nodup := by
  induction l using List.reverseRecOn with
  | nil => simp [dedupByKey, keysOf]
  | append_singleton l w ih =>
    rw [dedupByKey_append_single]
    by_cases h : ∃ v ∈ dedupByKey l, v.key = w.key
    · rw [keysOf_dedupInsert_mem h]
      exact ih
    · rw [keysOf_dedupInsert_not_mem h]
      push_neg at h
      rw [List.nodup_append]
      refine ⟨ih, List.nodup_singleton _, ?_⟩
      intro k hk hk'
      simp only [List.mem_singleton] at hk'
      obtain ⟨v, hv, hveq⟩ := List.mem_map.mp hk
      exact h v hv (by rw [hveq, hk'])

lemma dedupByKey_of_nodup {l : List StepUpdate} (h : (keysOf l).Nodup) :
    dedupByKey l = l := by
  induction l using List.reverseRecOn with
  | nil => rfl
  | append_singleton l u ih =>
    unfold keysOf at h
    rw [List.map_append, List.nodup_append] at h
    obtain ⟨h1, _, h3⟩ := h
    rw [dedupByKey_append_single, ih h1, dedupInsert_of_not_mem]
    rintro ⟨v, hv, hkey⟩
    exact h3 (List.mem_map_of_mem StepUpdate.key hv) (by simp [hkey])

/-! ## Helper lemmas: stable timestamp sort -/

lemma insertSorted_perm (u : StepUpdate) (l : List StepUpdate) :
    List.Perm (insertSorted u l) (u :: l) := by
  induction l with
  | nil => rfl
  | cons v vs ih =>
    unfold insertSorted
    split_ifs
    · rfl
    · exact (List.Perm.cons v ih).trans (List.Perm.swap u v vs)

lemma sortByTs_perm (l : List StepUpdate) : List.Perm (sortByTs l) l := by
  induction l using List.reverseRecOn with
  | nil => rfl
  | append_singleton l u ih =>
    have h1 : sortByTs (l ++ [u]) = insertSorted u (sortByTs l) := by
      unfold sortByTs
      rw [List.foldl_append]
      rfl
    rw [h1]
    exact ((insertSorted_perm u (sortByTs l)).trans (List.Perm.cons u ih)).trans
      (List.perm_append_singleton u l).symm

lemma mem_insertSorted {u x : StepUpdate} {l : List StepUpdate} :
    x ∈ insertSorted u l ↔ x = u ∨ x ∈ l := by
  rw [(insertSorted_perm u l).mem_iff]
  simp

lemma insertSorted_sorted (u : StepUpdate) {l : List StepUpdate}
    (h : l.Sorted (fun a b => tsKey a ≤ tsKey b)) :
    (insertSorted u l).Sorted (fun a b => tsKey a ≤ tsKey b) := by
  induction l with
  | nil => simp [insertSorted]
  | cons v vs ih =>
    rw [List.sorted_cons] at h
    unfold insertSorted
    split_ifs with hlt
    · rw [List.sorted_cons]
      constructor
      · intro b hb
        rcases List.mem_cons.mp hb with rfl | hb
        · exact le_of_lt hlt
        · exact (le_of_lt hlt).trans (h.1 b hb)
      · rw [List.sorted_cons]
        exact h
    · rw [List.sorted_cons]
      constructor
      · intro b hb
        rcases mem_insertSorted.mp hb with rfl | hb
        · exact not_lt.mp hlt
        · exact h.1 b hb
      · exact ih h.2

lemma sortByTs_sorted (l : List StepUpdate) :
    (sortByTs l).Sorted (fun a b => tsKey a ≤ tsKey b) := by
  induction l using List.reverseRecOn with
  | nil => simp [sortByTs]
  | append_singleton l u ih =>
    have h1 : sortByTs (l ++ [u]) = insertSorted u (sortByTs l) := by
      unfold sortByTs
      rw [List.foldl_append]
      rfl
    rw [h1]
    exact insertSorted_sorted u ih

lemma insertSorted_of_le (u : StepUpdate) {l : List StepUpdate}
    (h : ∀ v ∈ l, tsKey v ≤ tsKey u) : insertSorted u l = l ++ [u] := by
  induction l with
  | nil => rfl
  | cons v vs ih =>
    unfold insertSorted
    rw [if_neg (not_lt.mpr (h v (List.mem_cons_self v vs))),
      ih (fun w hw => h w (List.mem_cons_of_mem _ hw))]
    rfl

lemma sortByTs_of_sorted {l : List StepUpdate}
    (h : l.Sorted (fun a b => tsKey a ≤ tsKey b)) : sortByTs l = l := by
  induction l using List.reverseRecOn with
  | nil => rfl
  | append_singleton l u ih =>
    unfold List.Sorted at h
    rw [List.pairwise_append] at h
    obtain ⟨h1, _, h3⟩ := h
    have h4 : sortByTs (l ++ [u]) = insertSorted u (sortByTs l) := by
      unfold sortByTs
      rw [List.foldl_append]
      rfl
    rw [h4, ih h1, insertSorted_of_le u (fun v hv => h3 v hv u (List.mem_singleton_self u))]

/-! ## Helper lemmas: merged history -/

lemma mem_mergedHistory {db cache : List StepUpdate} {u : StepUpdate} :
    u ∈ mergedHistory db cache ↔ lastWithKey (db ++ cache) u.key = some u := by
  unfold mergedHistory
  rw [(sortByTs_perm _).mem_iff, mem_dedupByKey]

lemma nodup_keysOf_mergedHistory (db cache : List StepUpdate) :
    (keysOf (mergedHistory db cache)).Nodup := by
  have hperm := (sortByTs_perm (dedupByKey (db ++ cache))).map StepUpdate.key
  exact hperm.symm.nodup (nodup_keysOf_dedupByKey (db ++ cache))

lemma mergedHistory_sorted (db cache : List StepUpdate) :
    (mergedHistory db cache).Sorted (fun a b => tsKey a ≤ tsKey b) :=
  sortByTs_sorted _

lemma sortByTs_dedupByKey_fixpoint {F : List StepUpdate}
    (hnd : (keysOf F).Nodup) (hs : F.Sorted (fun a b => tsKey a ≤ tsKey b)) :
    sortByTs (dedupByKey F) = F := by
  rw [dedupByKey_of_nodup hnd, sortByTs_of_sorted hs]

lemma lastWithKey_append_right {l1 l2 : List StepUpdate}
    {k : String × Option String} {u : StepUpdate}
    (hu : u ∈ l2) (huk : u.key = k) (hall : ∀ v ∈ l2, v.key = k → v = u) :
    lastWithKey (l1 ++ l2) k = some u := by
  unfold lastWithKey
  rw [List.filter_append]
  have hmem : u ∈ l2.filter (fun v => decide (v.key = k)) :=
    List.mem_filter.mpr ⟨hu, by simp [huk]⟩
  have hne : l2.filter (fun v => decide (v.key = k)) ≠ [] := by
    intro hnil
    rw [hnil] at hmem
    exact absurd hmem (List.not_mem_nil u)
  rw [List.getLast?_append_of_ne_nil _ hne,
    List.getLast?_eq_getLast_of_ne_nil hne]
  congr 1
  have hmem' := List.getLast_mem hne
  have h := List.mem_filter.mp hmem'
  exact hall _ h.1 (by simpa using h.2)

/-! ## Helper lemmas: persist-and-clear -/

lemma persist_db_self (s : TrackerState) (hypId : String) :
    (StatusTracker.persist_and_clear s hypId).db.store hypId =
      mergedHistory (s.db.store hypId) (s.cache.history hypId) := by
  simp [StatusTracker.persist_and_clear, Db.save_task_history, Db.get_task_history,
    RedisStatusCache.get_history]

lemma persist_cache_history_self (s : TrackerState) (hypId : String) :
    (StatusTracker.persist_and_clear s hypId).cache.history hypId = [] := by
  simp [StatusTracker.persist_and_clear, RedisStatusCache.clear_history]

lemma persist_persisted_eq (s : TrackerState) (hypId : String) :
    (StatusTracker.persist_and_clear s hypId).cache.persisted =
      sadd s.cache.persisted hypId := rfl

lemma persist_inprogress_eq (s : TrackerState) (hypId : String) :
    (StatusTracker.persist_and_clear s hypId).cache.inprogress =
      s.cache.inprogress.erase hypId := rfl

lemma persist_latest_self (s : TrackerState) (hypId : String) :
    (StatusTracker.persist_and_clear s hypId).cache.latest hypId = none := by
  simp [StatusTracker.persist_and_clear, RedisStatusCache.clear_history]

lemma mergedHistory_nil_fixpoint (db cache : List StepUpdate) :
    mergedHistory (mergedHistory db cache) [] = mergedHistory db cache := by
  show sortByTs (dedupByKey (mergedHistory db cache ++ [])) = _
  rw [List.append_nil]
  exact sortByTs_dedupByKey_fixpoint (nodup_keysOf_mergedHistory db cache)
    (mergedHistory_sorted db cache)

/-! ## Claim C5 -/

/-- C5: the finalize protocol is idempotent.  After one `_persist_and_clear`
the instance's cache history is empty, and running it again writes exactly
the same durable history for the instance, leaves it in the persisted set,
and out of the in-progress set. -/
theorem persist_and_clear_idempotent (s : TrackerState) (hypId : String)
    (hnd : s.cache.inprogress.Nodup) :
    RedisStatusCache.get_history
        (StatusTracker.persist_and_clear s hypId).cache hypId = [] ∧
    (StatusTracker.persist_and_clear
        (StatusTracker.persist_and_clear s hypId) hypId).db.store hypId =
      (StatusTracker.persist_and_clear s hypId).db.store hypId ∧
    hypId ∈ (StatusTracker.persist_and_clear
        (StatusTracker.persist_and_clear s hypId) hypId).cache.persisted ∧
    hypId ∉ (StatusTracker.persist_and_clear
        (StatusTracker.persist_and_clear s hypId) hypId).cache.inprogress := by
  refine ⟨persist_cache_history_self s hypId, ?_, ?_, ?_⟩
  · rw [persist_db_self, persist_cache_history_self, persist_db_self]
    exact mergedHistory_nil_fixpoint _ _
  · rw [persist_persisted_eq]
    exact mem_sadd.mpr (Or.inr rfl)
  · rw [persist_inprogress_eq, persist_inprogress_eq]
    have h1 : hypId ∉ s.cache.inprogress.erase hypId := hnd.not_mem_erase
    rw [List.erase_of_not_mem h1]
    exact h1

/-- Witness for C5 on a concrete pre-state. -/
theorem persist_and_clear_idempotent_witness :
    RedisStatusCache.get_history
        (StatusTracker.persist_and_clear c1State "h1").cache "h1" = [] ∧
    (StatusTracker.persist_and_clear
        (StatusTracker.persist_and_clear c1State "h1") "h1").db.store "h1" =
      (StatusTracker.persist_and_clear c1State "h1").db.store "h1" ∧
    "h1" ∈ (StatusTracker.persist_and_clear
        (StatusTracker.persist_and_clear c1State "h1") "h1").cache.persisted ∧
    "h1" ∉ (StatusTracker.persist_and_clear
        (StatusTracker.persist_and_clear c1State "h1") "h1").cache.inprogress :=
  persist_and_clear_idempotent c1State "h1" (by decide)

/-! ## Claim C6 -/

lemma get_history_after_persist (s : TrackerState) (hypId : String) :
    StatusTracker.get_history (StatusTracker.persist_and_clear s hypId) hypId =
      mergedHistory (Db.get_task_history s.db hypId)
        (RedisStatusCache.get_history s.cache hypId) := by
  have hpers : RedisStatusCache.is_persisted
      (StatusTracker.persist_and_clear s hypId).cache hypId = true := by
    simp only [RedisStatusCache.is_persisted, persist_persisted_eq, decide_eq_true_eq]
    exact mem_sadd.mpr (Or.inr rfl)
  unfold StatusTracker.get_history
  rw [RedisStatusCache.get_history, persist_cache_history_self, hpers]
  simp only [if_true, List.nil_append]
  rw [show Db.get_task_history (StatusTracker.persist_and_clear s hypId).db hypId =
      mergedHistory (s.db.store hypId) (s.cache.history hypId) from persist_db_self s hypId]
  by_cases hF : mergedHistory (s.db.store hypId) (s.cache.history hypId) = []
  · rw [if_pos hF]
    exact hF.symm
  · rw [if_neg hF]
    exact sortByTs_dedupByKey_fixpoint (nodup_keysOf_mergedHistory _ _)
      (mergedHistory_sorted _ _)

/-- C6: round-trip.  For any pre-finalize durable history and cache history,
the set of updates `get_history` returns after finalize is exactly the
merged deduplicated history that finalize computed and persisted. -/
theorem get_history_roundtrip (s : TrackerState) (hypId : String) (u : StepUpdate) :
    u ∈ StatusTracker.get_history (StatusTracker.persist_and_clear s hypId) hypId ↔
      u ∈ mergedHistory (Db.get_task_history s.db hypId)
        (RedisStatusCache.get_history s.cache hypId) := by
  rw [get_history_after_persist]

/-! ## Claim C1 -/

/-- C1 (counterexample): in `get_history` the cache entry does NOT win a
key collision.  On a persisted instance whose cache history and durable
history share the key `("Querying gene data", "T0")`, `get_history` returns
the durable-store entry and discards the cache entry, because it iterates
cache history first and store history second, so the store entry
overwrites the cache entry in the dedup dict. -/
theorem get_history_store_entry_wins :
    c1CacheEntry.key = c1DbEntry.key ∧ c1CacheEntry ≠ c1DbEntry ∧
    RedisStatusCache.is_persisted c1State.cache "h1" = true ∧
    c1DbEntry ∈ StatusTracker.get_history c1State "h1" ∧
    c1CacheEntry ∉ StatusTracker.get_history c1State "h1" := by decide

/-- C1 (amended): on a `(task_name, timestamp)` collision between a
durable-store entry and a cache entry, the cache entry wins in the finalize
protocol (which iterates store history then cache history), while in
`get_history` the store entry wins (it iterates cache history then store
history); in each case the losing entry is discarded. -/
theorem merge_collision_direction (s : TrackerState) (hypId : String)
    (ud uc : StepUpdate)
    (hpers : RedisStatusCache.is_persisted s.cache hypId = true)
    (hd : ud ∈ Db.get_task_history s.db hypId)
    (hc : uc ∈ RedisStatusCache.get_history s.cache hypId)
    (hkey : ud.key = uc.key)
    (hdbU : ∀ v ∈ Db.get_task_history s.db hypId, v.key = uc.key → v = ud)
    (hcaU : ∀ v ∈ RedisStatusCache.get_history s.cache hypId, v.key = uc.key → v = uc) :
    (uc ∈ (StatusTracker.persist_and_clear s hypId).db.store hypId ∧
      (uc ≠ ud → ud ∉ (StatusTracker.persist_and_clear s hypId).db.store hypId)) ∧
    (ud ∈ StatusTracker.get_history s hypId ∧
      (uc ≠ ud → uc ∉ StatusTracker.get_history s hypId)) := by
  have hlast_fin :
      lastWithKey (Db.get_task_history s.db hypId ++
        RedisStatusCache.get_history s.cache hypId) uc.key = some uc :=
    lastWithKey_append_right hc rfl hcaU
  have hlast_get :
      lastWithKey (RedisStatusCache.get_history s.cache hypId ++
        Db.get_task_history s.db hypId) uc.key = some ud :=
    lastWithKey_append_right hd hkey hdbU
  have hgh : StatusTracker.get_history s hypId =
      mergedHistory (RedisStatusCache.get_history s.cache hypId)
        (Db.get_task_history s.db hypId) := by
    unfold StatusTracker.get_history
    rw [hpers]
    simp only [if_true]
    rw [if_neg]
    · rfl
    · intro hnil
      rw [List.append_eq_nil] at hnil
      rw [hnil.1] at hc
      exact absurd hc (List.not_mem_nil uc)
  constructor
  · constructor
    · rw [persist_db_self]
      exact mem_mergedHistory.mpr hlast_fin
    · intro hne hmem
      rw [persist_db_self] at hmem
      have h1 := mem_mergedHistory.mp hmem
      rw [hkey] at h1
      exact hne (Option.some_injective _ (hlast_fin.symm.trans h1))
  · constructor
    · rw [hgh]
      refine mem_mergedHistory.mpr ?_
      rw [hkey]
      exact hlast_get
    · intro hne hmem
      rw [hgh] at hmem
      have h1 := mem_mergedHistory.mp hmem
      exact hne (Option.some_injective _ (hlast_get.symm.trans h1)).symm

/-- Witness for C1's amended theorem on the concrete collision state. -/
theorem merge_collision_direction_witness :
    (c1CacheEntry ∈ (StatusTracker.persist_and_clear c1State "h1").db.store "h1" ∧
      (c1CacheEntry ≠ c1DbEntry →
        c1DbEntry ∉ (StatusTracker.persist_and_clear c1State "h1").db.store "h1")) ∧
    (c1DbEntry ∈ StatusTracker.get_history c1State "h1" ∧
      (c1CacheEntry ≠ c1DbEntry →
        c1CacheEntry ∉ StatusTracker.get_history c1State "h1")) :=
  merge_collision_direction c1State "h1" c1DbEntry c1CacheEntry (by decide)
    (by decide) (by decide) (by decide) (by decide) (by decide)

/-! ## Claim C3 -/

/-- C3: `record` invokes the finalize protocol if and only if the state is
Completed or Failed and the task name is a phase-terminal marker (exactly
"Creating enrich data", exactly "Generating hypothesis", or a "Verifying
existence" prefix together with progress 80); in every other case the
update is only appended to the cache (the returned state differs from the
input only in the cache) and no finalize occurs. -/
theorem add_update_finalize_iff (now : String) (s : TrackerState) (hypId : String)
    (progress : ℚ) (task_name : String) (state : TaskState)
    (details err : Option String) (h : hypId ≠ "") :
    (((state = TaskState.completed ∨ state = TaskState.failed) ∧
        ((task_name = "Creating enrich data" ∨ task_name = "Generating hypothesis") ∨
          (String.isPrefixOf "Verifying existence" task_name = true ∧ progress = 80))) →
      StatusTracker.add_update now s hypId progress task_name state details err =
        Except.ok (StatusTracker.persist_and_clear
          { s with cache := (RedisStatusCache.add_update now s.cache hypId
              (recordUpdate now task_name state progress details err)) } hypId)) ∧
    (¬((state = TaskState.completed ∨ state = TaskState.failed) ∧
        ((task_name = "Creating enrich data" ∨ task_name = "Generating hypothesis") ∨
          (String.isPrefixOf "Verifying existence" task_name = true ∧ progress = 80))) →
      StatusTracker.add_update now s hypId progress task_name state details err =
        Except.ok { s with cache := (RedisStatusCache.add_update now s.cache hypId
          (recordUpdate now task_name state progress details err)) }) := by
  unfold StatusTracker.add_update
  rw [if_neg h]
  constructor
  · intro hcond
    dsimp only
    rw [if_pos hcond]
  · intro hcond
    dsimp only
    rw [if_neg hcond]

/-- Witness for C3: a terminal marker triggers the finalize protocol. -/
theorem add_update_finalize_iff_witness :
    StatusTracker.add_update "T1" initialState "h1" 80 "Creating enrich data"
        TaskState.completed none none =
      Except.ok (StatusTracker.persist_and_clear
        { initialState with cache := (RedisStatusCache.add_update "T1" initialState.cache "h1"
            (recordUpdate "T1" "Creating enrich data" TaskState.completed 80 none none)) } "h1") :=
  (add_update_finalize_iff "T1" initialState "h1" 80 "Creating enrich data"
    TaskState.completed none none (by decide)).1 (by decide)

/-! ## Claim C4 -/

/-- C4 (counterexample): the residency states are not mutually exclusive.
After a finalize-triggering record, "h1" is persisted and out of the
in-progress set; a subsequent ordinary record re-adds it to the in-progress
set while it stays in the persisted set, so it is simultaneously a member
of both. -/
theorem inprogress_and_persisted_simultaneously :
    (StatusTracker.add_update "T1" initialState "h1" 80 "Creating enrich data"
        TaskState.completed none none).isOk = true ∧
    (StatusTracker.add_update "T2" c4State1 "h1" 10 "Querying gene data"
        TaskState.started none none).isOk = true ∧
    "h1" ∈ c4State1.cache.persisted ∧ "h1" ∉ c4State1.cache.inprogress ∧
    "h1" ∈ c4State2.cache.inprogress ∧ "h1" ∈ c4State2.cache.persisted := by
  decide

lemma persisted_mono_recoverOne (now : String) (s : TrackerState) (j x : String)
    (hx : x ∈ s.cache.persisted) : x ∈ (StatusTracker.recoverOne now s j).cache.persisted := by
  unfold StatusTracker.recoverOne
  cases hl : RedisStatusCache.get_latest s.cache j with
  | none =>
    rw [persist_persisted_eq]
    exact mem_sadd.mpr (Or.inl hx)
  | some latest =>
    rw [persist_persisted_eq]
    exact mem_sadd.mpr (Or.inl hx)

lemma persisted_mono_foldl (now : String) (ids : List String) (s : TrackerState)
    (x : String) (hx : x ∈ s.cache.persisted) :
    x ∈ (ids.foldl (StatusTracker.recoverOne now) s).cache.persisted := by
  induction ids generalizing s with
  | nil => exact hx
  | cons j ids ih => exact ih _ (persisted_mono_recoverOne now s j x hx)

/-- C4 (amended): once persisted, an instance never leaves the persisted
set — `record`, the finalize protocol and recovery all preserve persisted
membership — but a persisted instance can re-enter the in-progress set
(see the counterexample), so the residency states are untracked,
in-progress, persisted, or in-progress-and-persisted. -/
theorem persisted_is_permanent (now : String) (s : TrackerState) (hypId x : String)
    (progress : ℚ) (task_name : String) (state : TaskState) (d e : Option String)
    (hx : x ∈ s.cache.persisted) :
    x ∈ (runRecord now s hypId progress task_name state d e).cache.persisted ∧
    x ∈ (StatusTracker.persist_and_clear s hypId).cache.persisted ∧
    x ∈ (StatusTracker.recover_from_cache now s).cache.persisted := by
  refine ⟨?_, ?_, ?_⟩
  · unfold runRecord StatusTracker.add_update
    by_cases hid : hypId = ""
    · rw [if_pos hid]
      exact hx
    · rw [if_neg hid]
      split_ifs with hcond
      · show x ∈ (StatusTracker.persist_and_clear _ hypId).cache.persisted
        rw [persist_persisted_eq]
        exact mem_sadd.mpr (Or.inl hx)
      · exact hx
  · rw [persist_persisted_eq]
    exact mem_sadd.mpr (Or.inl hx)
  · exact persisted_mono_foldl now _ s x hx

/-- Witness for C4's amended theorem. -/
theorem persisted_is_permanent_witness :
    "h1" ∈ (runRecord "T3" c1State "h2" 10 "Querying gene data"
        TaskState.started none none).cache.persisted ∧
    "h1" ∈ (StatusTracker.persist_and_clear c1State "h2").cache.persisted ∧
    "h1" ∈ (StatusTracker.recover_from_cache "T3" c1State).cache.persisted :=
  persisted_is_permanent "T3" c1State "h2" "h1" 10 "Querying gene data"
    TaskState.started none none (by decide)

/-! ## Helper lemmas: recovery loop -/

lemma persist_cache_history_ne (t : TrackerState) (j k : String) (h : k ≠ j) :
    (StatusTracker.persist_and_clear t j).cache.history k = t.cache.history k := by
  simp [StatusTracker.persist_and_clear, RedisStatusCache.clear_history, h]

lemma persist_latest_ne (t : TrackerState) (j k : String) (h : k ≠ j) :
    (StatusTracker.persist_and_clear t j).cache.latest k = t.cache.latest k := by
  simp [StatusTracker.persist_and_clear, RedisStatusCache.clear_history, h]

lemma persist_db_ne (t : TrackerState) (j k : String) (h : k ≠ j) :
    (StatusTracker.persist_and_clear t j).db.store k = t.db.store k := by
  simp [StatusTracker.persist_and_clear, Db.save_task_history, h]

lemma cacheAdd_history_ne (now : String) (c : CacheState) (j : String)
    (u : StepUpdate) (k : String) (h : k ≠ j) :
    (RedisStatusCache.add_update now c j u).history k = c.history k := by
  simp [RedisStatusCache.add_update, h]

lemma cacheAdd_latest_ne (now : String) (c : CacheState) (j : String)
    (u : StepUpdate) (k : String) (h : k ≠ j) :
    (RedisStatusCache.add_update now c j u).latest k = c.latest k := by
  simp [RedisStatusCache.add_update, h]

lemma cacheAdd_history_self (now : String) (c : CacheState) (j : String)
    (u : StepUpdate) :
    (RedisStatusCache.add_update now c j u).history j =
      zaddMember (c.history j) (ensureTimestamp now u) := by
  simp [RedisStatusCache.add_update]

lemma recoverOne_history_ne (now : String) (s : TrackerState) (j k : String)
    (h : k ≠ j) :
    (StatusTracker.recoverOne now s j).cache.history k = s.cache.history k := by
  unfold StatusTracker.recoverOne
  cases hl : RedisStatusCache.get_latest s.cache j with
  | none =>
    dsimp only
    exact persist_cache_history_ne s j k h
  | some latest =>
    dsimp only
    rw [persist_cache_history_ne _ j k h]
    exact cacheAdd_history_ne now s.cache j _ k h

lemma recoverOne_latest_ne (now : String) (s : TrackerState) (j k : String)
    (h : k ≠ j) :
    (StatusTracker.recoverOne now s j).cache.latest k = s.cache.latest k := by
  unfold StatusTracker.recoverOne
  cases hl : RedisStatusCache.get_latest s.cache j with
  | none =>
    dsimp only
    exact persist_latest_ne s j k h
  | some latest =>
    dsimp only
    rw [persist_latest_ne _ j k h]
    exact cacheAdd_latest_ne now s.cache j _ k h

lemma recoverOne_db_ne (now : String) (s : TrackerState) (j k : String) (h : k ≠ j) :
    (StatusTracker.recoverOne now s j).db.store k = s.db.store k := by
  unfold StatusTracker.recoverOne
  cases hl : RedisStatusCache.get_latest s.cache j with
  | none =>
    dsimp only
    exact persist_db_ne s j k h
  | some latest =>
    dsimp only
    exact persist_db_ne _ j k h

lemma recoverOne_inprogress_ne (now : String) (s : TrackerState) (j k : String)
    (h : k ≠ j) :
    (k ∈ (StatusTracker.recoverOne now s j).cache.inprogress ↔
      k ∈ s.cache.inprogress) := by
  unfold StatusTracker.recoverOne
  cases hl : RedisStatusCache.get_latest s.cache j with
  | none =>
    dsimp only
    rw [persist_inprogress_eq]
    exact List.mem_erase_of_ne h
  | some latest =>
    dsimp only
    rw [persist_inprogress_eq]
    rw [List.mem_erase_of_ne h]
    show k ∈ sadd s.cache.inprogress j ↔ _
    rw [mem_sadd]
    exact or_iff_left h

lemma recoverOne_persisted_ne (now : String) (s : TrackerState) (j k : String)
    (h : k ≠ j) :
    (k ∈ (StatusTracker.recoverOne now s j).cache.persisted ↔
      k ∈ s.cache.persisted) := by
  unfold StatusTracker.recoverOne
  cases hl : RedisStatusCache.get_latest s.cache j with
  | none =>
    dsimp only
    rw [persist_persisted_eq, mem_sadd]
    exact or_iff_left h
  | some latest =>
    dsimp only
    rw [persist_persisted_eq, mem_sadd]
    exact or_iff_left h

lemma recoverOne_inprogress_nodup (now : String) (s : TrackerState) (j : String)
    (h : s.cache.inprogress.Nodup) :
    (StatusTracker.recoverOne now s j).cache.inprogress.Nodup := by
  unfold StatusTracker.recoverOne
  cases hl : RedisStatusCache.get_latest s.cache j with
  | none =>
    dsimp only
    rw [persist_inprogress_eq]
    exact h.erase j
  | some latest =>
    dsimp only
    rw [persist_inprogress_eq]
    exact (sadd_nodup h).erase j

lemma recoverOne_self_history (now : String) (s : TrackerState) (j : String) :
    (StatusTracker.recoverOne now s j).cache.history j = [] := by
  unfold StatusTracker.recoverOne
  cases hl : RedisStatusCache.get_latest s.cache j with
  | none => dsimp only; exact persist_cache_history_self _ j
  | some latest => dsimp only; exact persist_cache_history_self _ j

lemma recoverOne_self_persisted (now : String) (s : TrackerState) (j : String) :
    j ∈ (StatusTracker.recoverOne now s j).cache.persisted := by
  unfold StatusTracker.recoverOne
  cases hl : RedisStatusCache.get_latest s.cache j with
  | none =>
    dsimp only
    rw [persist_persisted_eq]
    exact mem_sadd.mpr (Or.inr rfl)
  | some latest =>
    dsimp only
    rw [persist_persisted_eq]
    exact mem_sadd.mpr (Or.inr rfl)

lemma recoverOne_self_inprogress (now : String) (s : TrackerState) (j : String)
    (h : s.cache.inprogress.Nodup) :
    j ∉ (StatusTracker.recoverOne now s j).cache.inprogress := by
  unfold StatusTracker.recoverOne
  cases hl : RedisStatusCache.get_latest s.cache j with
  | none =>
    dsimp only
    rw [persist_inprogress_eq]
    exact h.not_mem_erase
  | some latest =>
    dsimp only
    rw [persist_inprogress_eq]
    exact (sadd_nodup h).not_mem_erase

lemma recoverOne_self_db (now : String) (s : TrackerState) (j : String) :
    (StatusTracker.recoverOne now s j).db.store j =
      mergedHistory (s.db.store j) (patchedCacheHistory now s j) := by
  unfold StatusTracker.recoverOne patchedCacheHistory
  cases hl : RedisStatusCache.get_latest s.cache j with
  | none =>
    dsimp only
    exact persist_db_self _ j
  | some latest =>
    dsimp only
    rw [persist_db_self _ j]
    congr 1
    exact cacheAdd_history_self now s.cache j _

lemma foldl_recoverOne_untouched (now : String) (ids : List String)
    (s : TrackerState) (k : String) (hk : k ∉ ids) :
    (ids.foldl (StatusTracker.recoverOne now) s).cache.history k = s.cache.history k ∧
    (ids.foldl (StatusTracker.recoverOne now) s).cache.latest k = s.cache.latest k ∧
    (ids.foldl (StatusTracker.recoverOne now) s).db.store k = s.db.store k ∧
    (k ∈ (ids.foldl (StatusTracker.recoverOne now) s).cache.inprogress ↔
      k ∈ s.cache.inprogress) ∧
    (k ∈ (ids.foldl (StatusTracker.recoverOne now) s).cache.persisted ↔
      k ∈ s.cache.persisted) := by
  induction ids generalizing s with
  | nil => exact ⟨rfl, rfl, rfl, Iff.rfl, Iff.rfl⟩
  | cons j ids ih =>
    have hkj : k ≠ j := fun hkj => hk (hkj ▸ List.mem_cons_self j ids)
    have hk' : k ∉ ids := fun hmem => hk (List.mem_cons_of_mem j hmem)
    have h1 := ih (StatusTracker.recoverOne now s j) hk'
    refine ⟨?_, ?_, ?_, ?_, ?_⟩
    · rw [List.foldl_cons, h1.1, recoverOne_history_ne now s j k hkj]
    · rw [List.foldl_cons, h1.2.1, recoverOne_latest_ne now s j k hkj]
    · rw [List.foldl_cons, h1.2.2.1, recoverOne_db_ne now s j k hkj]
    · rw [List.foldl_cons]
      exact h1.2.2.2.1.trans (recoverOne_inprogress_ne now s j k hkj)
    · rw [List.foldl_cons]
      exact h1.2.2.2.2.trans (recoverOne_persisted_ne now s j k hkj)

lemma foldl_recoverOne_nodup (now : String) (ids : List String) (s : TrackerState)
    (h : s.cache.inprogress.Nodup) :
    (ids.foldl (StatusTracker.recoverOne now) s).cache.inprogress.Nodup := by
  induction ids generalizing s with
  | nil => exact h
  | cons j ids ih => exact ih _ (recoverOne_inprogress_nodup now s j h)

lemma patchedCacheHistory_congr (now : String) (t s : TrackerState) (j : String)
    (hlat : t.cache.latest j = s.cache.latest j)
    (hhist : t.cache.history j = s.cache.history j) :
    patchedCacheHistory now t j = patchedCacheHistory now s j := by
  unfold patchedCacheHistory RedisStatusCache.get_latest
  rw [hlat, hhist]

/-! ## Claim C7 -/

/-- C7: `recover_from_cache` finalizes every instance in the in-progress
set: afterwards the instance is in the persisted set, out of the
in-progress set, and the durable store holds the merge of its previous
durable history with its cache history as patched by recovery.  When a
latest cached update exists, its absent fields are filled with
`timestamp = now`, `state = Failed`, `progress = 0`, the patched update is
re-written into the cache, and (when its key collides with no older cache
entry) it appears in the finalized durable history.  The `hwf` hypothesis
confines the statement to states whose stored and cached history entries
all carry timestamps: on any other state Python's `update['timestamp']`
accesses in `_persist_and_clear` raise `KeyError` and nothing is
finalized, a path outside this embedding. -/
theorem recover_finalizes_inprogress (now : String) (s : TrackerState)
    (hypId : String) (hnd : s.cache.inprogress.Nodup)
    (hmem : hypId ∈ s.cache.inprogress)
    (hwf : ∀ j ∈ s.cache.inprogress,
      ∀ v ∈ Db.get_task_history s.db j ++ RedisStatusCache.get_history s.cache j,
        v.timestamp ≠ none) :
    hypId ∈ (StatusTracker.recover_from_cache now s).cache.persisted ∧
    hypId ∉ (StatusTracker.recover_from_cache now s).cache.inprogress ∧
    (StatusTracker.recover_from_cache now s).db.store hypId =
      mergedHistory (s.db.store hypId) (patchedCacheHistory now s hypId) ∧
    (∀ u, RedisStatusCache.get_latest s.cache hypId = some u →
      (∀ v ∈ s.cache.history hypId,
        v.key ≠ (ensureTimestamp now (StatusTracker.patchLatest now u)).key) →
      ensureTimestamp now (StatusTracker.patchLatest now u) ∈
        (StatusTracker.recover_from_cache now s).db.store hypId ∧
      (u.state = none →
        (StatusTracker.patchLatest now u).state = some TaskState.failed.value) ∧
      (u.progress = none → (StatusTracker.patchLatest now u).progress = some 0) ∧
      (u.timestamp = none →
        (StatusTracker.patchLatest now u).timestamp = some now)) := by
  obtain ⟨l1, l2, hids⟩ := List.append_of_mem hmem
  have hnd' := hnd
  rw [hids, List.nodup_append, List.nodup_cons] at hnd'
  have hnl1 : hypId ∉ l1 := fun hin => hnd'.2.2 hin (List.mem_cons_self hypId l2)
  have hnl2 : hypId ∉ l2 := hnd'.2.1.1
  have hfold : StatusTracker.recover_from_cache now s =
      l2.foldl (StatusTracker.recoverOne now)
        (StatusTracker.recoverOne now (l1.foldl (StatusTracker.recoverOne now) s) hypId) := by
    unfold StatusTracker.recover_from_cache RedisStatusCache.list_inprogress
    rw [hids, List.foldl_append, List.foldl_cons]
  have hU := foldl_recoverOne_untouched now l1 s hypId hnl1
  have hndt : (l1.foldl (StatusTracker.recoverOne now) s).cache.inprogress.Nodup :=
    foldl_recoverOne_nodup now l1 s hnd
  have hU2 := foldl_recoverOne_untouched now l2
    (StatusTracker.recoverOne now (l1.foldl (StatusTracker.recoverOne now) s) hypId)
    hypId hnl2
  have hdb : (StatusTracker.recover_from_cache now s).db.store hypId =
      mergedHistory (s.db.store hypId) (patchedCacheHistory now s hypId) := by
    rw [hfold, hU2.2.2.1, recoverOne_self_db, hU.2.2.1,
      patchedCacheHistory_congr now _ s hypId hU.2.1 hU.1]
  refine ⟨?_, ?_, hdb, ?_⟩
  · rw [hfold]
    exact hU2.2.2.2.2.mpr (recoverOne_self_persisted now _ hypId)
  · rw [hfold]
    intro hin
    exact recoverOne_self_inprogress now _ hypId hndt (hU2.2.2.2.1.mp hin)
  · intro u hu hcol
    refine ⟨?_, ?_, ?_, ?_⟩
    · rw [hdb]
      have hpch : patchedCacheHistory now s hypId =
          s.cache.history hypId ++
            [ensureTimestamp now (StatusTracker.patchLatest now u)] := by
        unfold patchedCacheHistory
        rw [hu]
        dsimp only
        unfold zaddMember
        rw [if_neg]
        intro hin
        exact hcol _ hin rfl
      rw [hpch]
      refine mem_mergedHistory.mpr ?_
      rw [← List.append_assoc]
      exact lastWithKey_append_right (List.mem_singleton_self _) rfl
        (fun v hv _ => List.mem_singleton.mp hv)
    · intro h0
      simp [StatusTracker.patchLatest, h0]
    · intro h0
      simp [StatusTracker.patchLatest, h0]
    · intro h0
      simp [StatusTracker.patchLatest, h0]

/-- Witness for C7 on the spec's recovery scenario: "h2" left in progress
with a timestamped cache history and a latest pointer lacking timestamp,
state and progress is finalized with state Failed and progress 0. -/
theorem recover_finalizes_inprogress_witness :
    "h2" ∈ (StatusTracker.recover_from_cache "T9" c7State).cache.persisted ∧
    "h2" ∉ (StatusTracker.recover_from_cache "T9" c7State).cache.inprogress ∧
    ensureTimestamp "T9" (StatusTracker.patchLatest "T9" c7Latest) ∈
      (StatusTracker.recover_from_cache "T9" c7State).db.store "h2" ∧
    (StatusTracker.patchLatest "T9" c7Latest).state = some TaskState.failed.value ∧
    (StatusTracker.patchLatest "T9" c7Latest).progress = some 0 ∧
    (StatusTracker.patchLatest "T9" c7Latest).timestamp = some "T9" := by
  have h := recover_finalizes_inprogress "T9" c7State "h2" (by decide) (by decide)
    (by decide)
  have h4 := h.2.2.2 c7Latest (by decide) (by decide)
  exact ⟨h.1, h.2.1, h4.1, h4.2.1 rfl, h4.2.2.1 rfl, h4.2.2.2 rfl⟩

/-! ## Claim C8 -/

/-- C8: in `emit_task_update` the record happens before any publish
attempt — the returned tracker state is exactly the state the `record`
call committed, independent of broadcast success — publishing is retried
up to 3 times with a fixed back-off of 1 between failed attempts, and an
error is raised iff all 3 attempts fail, in which case the committed state
is still returned, not rolled back. -/
theorem emit_records_before_publish (now : String) (s : TrackerState)
    (hypId task_name : String) (state : TaskState) (progress : ℚ)
    (details err : Option String) (publishOk : Nat → Bool) (h : hypId ≠ "") :
    ∃ s1, StatusTracker.add_update now s hypId
        (if progress = 0 then
          StatusTracker.calculate_progress (StatusTracker.get_history s hypId)
        else progress) task_name state details err = Except.ok s1 ∧
      emit_task_update now s hypId task_name state progress details err publishOk =
        Except.ok (s1, (runAttempts publishOk (List.range 3)).1,
          (runAttempts publishOk (List.range 3)).2) ∧
      ((runAttempts publishOk (List.range 3)).2 = Except.ok () ↔
        (publishOk 0 = true ∨ publishOk 1 = true ∨ publishOk 2 = true)) ∧
      (∀ d ∈ (runAttempts publishOk (List.range 3)).1, d = 1) ∧
      (runAttempts publishOk (List.range 3)).1.length ≤ 2 := by
  have hok : ∃ s1, StatusTracker.add_update now s hypId
      (if progress = 0 then
        StatusTracker.calculate_progress (StatusTracker.get_history s hypId)
      else progress) task_name state details err = Except.ok s1 := by
    unfold StatusTracker.add_update
    rw [if_neg h]
    exact ⟨_, rfl⟩
  obtain ⟨s1, hs1⟩ := hok
  have hr : List.range 3 = [0, 1, 2] := rfl
  refine ⟨s1, hs1, ?_, ?_, ?_, ?_⟩
  · unfold emit_task_update
    dsimp only
    rw [hs1]
  · rw [hr]
    cases h0 : publishOk 0 <;> cases h1 : publishOk 1 <;> cases h2 : publishOk 2 <;>
      simp [runAttempts, h0, h1, h2]
  · rw [hr]
    cases h0 : publishOk 0 <;> cases h1 : publishOk 1 <;> cases h2 : publishOk 2 <;>
      simp [runAttempts, h0, h1, h2]
  · rw [hr]
    cases h0 : publishOk 0 <;> cases h1 : publishOk 1 <;> cases h2 : publishOk 2 <;>
      simp [runAttempts, h0, h1, h2]

/-- Witness for C8 with an always-failing publisher: the state is committed
and the error is surfaced after 3 attempts with two unit back-offs. -/
theorem emit_records_before_publish_witness :
    ∃ s1, StatusTracker.add_update "T1" initialState "h1"
        (if (5 : ℚ) = 0 then
          StatusTracker.calculate_progress (StatusTracker.get_history initialState "h1")
        else 5) "Querying gene data" TaskState.started none none = Except.ok s1 ∧
      emit_task_update "T1" initialState "h1" "Querying gene data" TaskState.started 5
          none none (fun _ => false) =
        Except.ok (s1, (runAttempts (fun _ => false) (List.range 3)).1,
          (runAttempts (fun _ => false) (List.range 3)).2) ∧
      ((runAttempts (fun _ => false) (List.range 3)).2 = Except.ok () ↔
        ((fun _ : Nat => false) 0 = true ∨ (fun _ : Nat => false) 1 = true ∨
          (fun _ : Nat => false) 2 = true)) ∧
      (∀ d ∈ (runAttempts (fun _ => false) (List.range 3)).1, d = 1) ∧
      (runAttempts (fun _ => false) (List.range 3)).1.length ≤ 2 :=
  emit_records_before_publish "T1" initialState "h1" "Querying gene data"
    TaskState.started 5 none none (fun _ => false) (by decide)

end HypDemo
